import Mathlib

/-!
Shallow embedding of `ZEO/ClientCache.py` (the two-file client cache of a
remote object storage).  Files are byte lists, the controller state is a
`Cache` structure, and every public operation of the `ClientCache` class is
translated into a pure function on that state.

Conventions used throughout:
* a byte is a `Nat` (the source works on Python 2 byte strings);
  status bytes: 118 = 'v', 110 = 'n', 105 = 'i';
* `readBytes f off n` models `f.seek(off); f.read(n)` — reading past the end
  of the file returns the available (possibly empty) suffix, as in Python;
* `writeBytes f off l` models `f.seek(off); f.write(l)` — seeking past the
  end of the file and then writing pads the gap with zero bytes;
* the in-memory index (a Python dict keyed by 8-byte oids) is an association
  list with `lookupA` / `removeA` / `insertA`;
* every source method seeks before reading or writing, so no file cursor
  survives between operations and each operation can be modelled with
  explicit offsets.
-/

set_option maxRecDepth 100000

/-- Big-endian value of a byte string (`struct.unpack` helper). -/
def beNat (l : List Nat) : Nat :=
  l.foldl (fun a b => a * 256 + b) 0

/-- `struct.pack(">I", n)`: 4-byte big-endian encoding (of `n % 2^32`). -/
def packU32 (n : Nat) : List Nat :=
  [n / 16777216 % 256, n / 65536 % 256, n / 256 % 256, n % 256]

/-- `struct.pack(">H", n)`: 2-byte big-endian encoding (of `n % 2^16`). -/
def packU16 (n : Nat) : List Nat :=
  [n / 256 % 256, n % 256]

/-- `struct.unpack(">i", bs)`: signed 32-bit read of a 4-byte string. -/
def sInt32 (l : List Nat) : Int :=
  if beNat l < 2147483648 then (beNat l : Int) else (beNat l : Int) - 4294967296

/-- `f.seek(off); f.read(n)` on a file modelled as a byte list. -/
def readBytes (f : List Nat) (off n : Nat) : List Nat :=
  (f.drop off).take n

/-- `f.seek(off); f.write(l)`: overwrite in place, zero-padding any gap
between the end of the file and `off` (sparse-file semantics). -/
def writeBytes (f : List Nat) (off : Nat) (l : List Nat) : List Nat :=
  (f.take off ++ List.replicate (off - f.length) 0) ++ (l ++ f.drop (off + l.length))

/-- The in-memory index: oid (8-byte string) to signed file offset. -/
abbrev Idx := List (List Nat × Int)

/-- The serial map built by `read_index`: oid to (serial, optional vserial). -/
abbrev SerMap := List (List Nat × (List Nat × Option (List Nat)))

/-- `index.get(oid, None)` on an association list. -/
def lookupA {β : Type} (l : List (List Nat × β)) (k : List Nat) : Option β :=
  match l with
  | [] => none
  | (k2, v) :: t => if k2 = k then some v else lookupA t k

/-- `del index[oid]` on an association list. -/
def removeA {β : Type} (l : List (List Nat × β)) (k : List Nat) : List (List Nat × β) :=
  match l with
  | [] => []
  | (k2, v) :: t => if k2 = k then removeA t k else (k2, v) :: removeA t k

/-- `index[oid] = v` on an association list (overwrite any previous binding). -/
def insertA {β : Type} (l : List (List Nat × β)) (k : List Nat) (v : β) :
    List (List Nat × β) :=
  (k, v) :: removeA l k

/-- The magic file header, ASCII "ZEC0". -/
def magicB : List Nat := [90, 69, 67, 48]

/-- State of a `ClientCache` instance: the two segment files (`self._f`),
the index, the active-segment selector `self._current` (false = segment 0),
the append position `self._pos` and the size limit `self._limit`.
A segment-1 file that the source would hold as `None` is modelled as the
empty byte list. -/
structure Cache where
  file0 : List Nat
  file1 : List Nat
  index : Idx
  current : Bool
  pos : Nat
  limit : Nat
  deriving DecidableEq, Repr

/-- `self._f[p < 0]`: segment selection by the sign of an index entry. -/
def fileAt (c : Cache) (p : Int) : List Nat :=
  if p < 0 then c.file1 else c.file0

/-- Replace the segment selected by the sign of `p`. -/
def putFileAt (c : Cache) (p : Int) (nf : List Nat) : Cache :=
  if p < 0 then { c with file1 := nf } else { c with file0 := nf }

/-- `self._f[self._current]`: the active segment. -/
def curFile (c : Cache) : List Nat :=
  if c.current then c.file1 else c.file0

/-- Replace the active segment. -/
def putCurFile (c : Cache) (nf : List Nat) : Cache :=
  if c.current then { c with file1 := nf } else { c with file0 := nf }

/-- Parsing of a 27-byte record header against an expected oid, shared
verbatim by `load`, `update` and `modifiedInVersion`:

    if len(h)==27 and h[8] in 'nv' and h[:8]==oid:
        tlen, vlen, dlen = unpack(">iHi", h[9:19])
    else:
        tlen = -1

The result is `(tlen, vlen, dlen)`; the malformed case yields `(-1, 0, 0)`
(the source leaves `vlen`/`dlen` unbound there, but short-circuiting on
`tlen <= 0` means they are never consulted). -/
def parseHdr (h oid : List Nat) : Int × Int × Int :=
  if h.length = 27 ∧ ((h.drop 8).take 1 = [110] ∨ (h.drop 8).take 1 = [118])
      ∧ h.take 8 = oid then
    (sInt32 (readBytes h 9 4), ((beNat (readBytes h 13 2) : Nat) : Int),
     sInt32 (readBytes h 15 4))
  else (-1, 0, 0)

/-- `ClientCache.invalidate(oid, version)`.

Note on the write offset: the source does

    f.seek(ap); h = f.read(8)        # position is now ap+8
    if h != oid: return
    f.seek(8, 1)                     # RELATIVE seek: position is now ap+16
    f.write('n' or 'i')

so the single status character is written at `ap + 16` (the second byte of
the `dlen` field), not at `ap + 8` where the status byte lives. -/
def invalidate (c : Cache) (oid version : List Nat) : Cache :=
  match lookupA c.index oid with
  | none => c
  | some p =>
    let f := fileAt c p
    let ap := p.natAbs
    if readBytes f ap 8 ≠ oid then c
    else if version ≠ [] then
      putFileAt c p (writeBytes f (ap + 16) [110])
    else
      { putFileAt c p (writeBytes f (ap + 16) [105]) with
          index := removeA c.index oid }

/-- `ClientCache.load(oid, version)`: returns the result and the (possibly
index-pruned) state. -/
def load (c : Cache) (oid version : List Nat) :
    Option (List Nat × List Nat) × Cache :=
  match lookupA c.index oid with
  | none => (none, c)
  | some p =>
    let f := fileAt c p
    let ap := p.natAbs
    let h := readBytes f ap 27
    let t := parseHdr h oid
    let tlen := t.1
    let vlen := t.2.1
    let dlen := t.2.2
    if tlen ≤ 0 ∨ vlen < 0 ∨ dlen < 0 ∨ vlen + dlen > tlen then
      (none, { c with index := removeA c.index oid })
    else if (h.drop 8).take 1 = [110] ∧ version ≠ [] then
      (none, c)
    else if (h.drop 8).take 1 = [110] ∧ dlen = 0 then
      (none, { c with index := removeA c.index oid })
    else if vlen = 0 ∨ version = [] then
      if dlen ≠ 0 then (some (readBytes f (ap + 27) dlen.toNat, h.drop 19), c)
      else (none, c)
    else
      let v := readBytes f (ap + 27 + dlen.toNat) vlen.toNat
      if version ≠ v then
        if dlen ≠ 0 then (some (readBytes f (ap + 27) dlen.toNat, h.drop 19), c)
        else (none, c)
      else
        let vdlen := sInt32 (readBytes f (ap + 27 + dlen.toNat + vlen.toNat) 4)
        if vdlen < 0 then
          -- Python's read(n) with negative n reads to the end of the file,
          -- after which read(8) returns the empty string.
          (some (f.drop (ap + 27 + dlen.toNat + vlen.toNat + 4), []), c)
        else
          (some (readBytes f (ap + 27 + dlen.toNat + vlen.toNat + 4) vdlen.toNat,
                 readBytes f (ap + 27 + dlen.toNat + vlen.toNat + 4 + vdlen.toNat) 8),
           c)

/-- `tlen` of an encoded record: `31 + len(p)`, plus
`len(version) + 12 + len(pv)` when a version is present. -/
def recTlen (p version pv : List Nat) : Nat :=
  31 + p.length + (if version = [] then 0 else version.length + 12 + pv.length)

/-- The byte string assembled by `_store` (the list `l` of the source):
`oid ++ 'v' ++ tlen ++ vlen ++ dlen ++ serial ++ data
     ++ [version ++ vdlen ++ vdata ++ vserial] ++ tlen`.
The encoder always writes status 'v' (118). -/
def recBytes (oid p s version pv sv : List Nat) : List Nat :=
  oid ++ [118] ++ packU32 (recTlen p version pv)
      ++ packU16 (if version = [] then 0 else version.length)
      ++ packU32 p.length ++ s ++ p
      ++ (if version = [] then [] else version ++ packU32 pv.length ++ pv ++ sv)
      ++ packU32 (recTlen p version pv)

/-- `ClientCache._store(oid, p, s, version, pv, sv)`: coerce an empty serial
to `('', 8 zero bytes)`, encode one record, write it at the append position
of the active segment, update the index (sign-encoding the segment) and
advance the append position. -/
def _store (c : Cache) (oid p s version pv sv : List Nat) : Cache :=
  let p2 := if s = [] then [] else p
  let s2 := if s = [] then List.replicate 8 0 else s
  let c2 := putCurFile c (writeBytes (curFile c) c.pos (recBytes oid p2 s2 version pv sv))
  { c2 with
      index := insertA c.index oid (if c.current then -(c.pos : Int) else (c.pos : Int)),
      pos := c.pos + recTlen p2 version pv }

/-- `ClientCache.store` (the public entry point just takes the lock and
delegates to `_store`). -/
def store (c : Cache) (oid p s version pv sv : List Nat) : Cache :=
  _store c oid p s version pv sv

/-- `ClientCache.update(oid, serial, version, data)`. -/
def update (c : Cache) (oid serial version data : List Nat) : Cache :=
  if version ≠ [] then
    match lookupA c.index oid with
    | none => _store c oid [] [] version data serial
    | some p =>
      let f := fileAt c p
      let ap := p.natAbs
      let h := readBytes f ap 27
      let t := parseHdr h oid
      let tlen := t.1
      let vlen := t.2.1
      let dlen := t.2.2
      if tlen ≤ 0 ∨ vlen < 0 ∨ dlen ≤ 0 ∨ vlen + dlen > tlen then
        _store c oid [] [] version data serial
      else if dlen ≠ 0 then
        _store c oid (readBytes f (ap + 27) dlen.toNat) (h.drop 19) version data serial
      else
        _store c oid [] [] version data serial
  else
    _store c oid data serial [] [] []

/-- `ClientCache.modifiedInVersion(oid)`: `some []` models the `''` return
(non-version record), `none` models a miss. -/
def modifiedInVersion (c : Cache) (oid : List Nat) :
    Option (List Nat) × Cache :=
  match lookupA c.index oid with
  | none => (none, c)
  | some p =>
    let f := fileAt c p
    let ap := p.natAbs
    let h := readBytes f ap 27
    let t := parseHdr h oid
    let tlen := t.1
    let vlen := t.2.1
    let dlen := t.2.2
    if tlen ≤ 0 ∨ vlen < 0 ∨ dlen < 0 ∨ vlen + dlen > tlen then
      (none, { c with index := removeA c.index oid })
    else if (h.drop 8).take 1 = [110] then (none, c)
    else if vlen = 0 then (some [], c)
    else (some (readBytes f (ap + 27 + dlen.toNat) vlen.toNat), c)

/-- `ClientCache.checkSize(size)`: rotate when the anticipated write would
push the append position past the limit.  Both the persistent and the
temporary branch of the source end with a fresh file holding only the
magic, position 4; the previously active segment is untouched. -/
def checkSize (c : Cache) (size : Nat) : Cache :=
  if c.limit < c.pos + size then
    let cur := !c.current
    if cur then { c with current := cur, file1 := magicB, pos := 4 }
    else { c with current := cur, file0 := magicB, pos := 4 }
  else c

/-- Result of a `read_index` scan. -/
structure ScanState where
  index : Idx
  serial : SerMap
  pos : Nat
  deriving DecidableEq, Repr

/-- One pass of the `read_index` loop, with explicit fuel (each iteration
advances `pos` by at least one byte and stops once the 27-byte header read
comes back short, so `f.length + 1` fuel is always enough).  The header
check accepts status 'v', 'n' or 'i' here.  Note the versioned self-check:
the 4 bytes after `vserial` are compared against `h[9:13]` — the encoded
`tlen` field of the header. -/
def scanLoop (f : List Nat) (current : Bool) : Nat → ScanState → ScanState
  | 0, st => st
  | fuel + 1, st =>
    let h := readBytes f st.pos 27
    let ok := h.length = 27 ∧ ((h.drop 8).take 1 = [118] ∨ (h.drop 8).take 1 = [110]
                ∨ (h.drop 8).take 1 = [105])
    let t : Int × Int × Int :=
      if ok then
        (sInt32 (readBytes h 9 4), ((beNat (readBytes h 13 2) : Nat) : Int),
         sInt32 (readBytes h 15 4))
      else (-1, 0, 0)
    let tlen := t.1
    let vlen := t.2.1
    let dlen := t.2.2
    if tlen ≤ 0 ∨ vlen < 0 ∨ dlen < 0 ∨ vlen + dlen > tlen then st
    else
      let oid := h.take 8
      -- status 'v' with a version section: walk the version tail and
      -- cross-check; `none` means the loop breaks at this record.
      let vsState : Option (Option (List Nat)) :=
        if (h.drop 8).take 1 = [118] ∧ vlen ≠ 0 then
          let vdlenB := readBytes f (st.pos + 27 + dlen.toNat + vlen.toNat) 4
          if vdlenB.length ≠ 4 then none
          else
            let vdlen := sInt32 vdlenB
            if vlen + dlen + 42 + vdlen > tlen then none
            else
              let base : Int := (st.pos + 27 + dlen.toNat + vlen.toNat + 4 : Nat)
              let vs := readBytes f (base + vdlen).toNat 8
              if readBytes f ((base + vdlen).toNat + 8) 4 ≠ readBytes h 9 4 then none
              else some (some vs)
        else some none
      match vsState with
      | none => st
      | some vs =>
        if (h.drop 8).take 1 = [118] ∨ (h.drop 8).take 1 = [110] then
          scanLoop f current fuel
            { index := insertA st.index oid
                (if current then -(st.pos : Int) else (st.pos : Int)),
              serial := insertA st.serial oid (h.drop 19, vs),
              pos := st.pos + tlen.toNat }
        else
          -- status 'i': drop any earlier entry for this oid.
          let st2 :=
            if lookupA st.serial oid ≠ none then
              { st with index := removeA st.index oid, serial := removeA st.serial oid }
            else st
          scanLoop f current fuel { st2 with pos := st.pos + tlen.toNat }

/-- `read_index(index, serial, f, current)`: scan a segment from offset 4.
(The source also truncates the file at the final position; the truncation
is not needed by any theorem below and is not modelled.) -/
def read_index (index : Idx) (serial : SerMap) (f : List Nat) (current : Bool) :
    ScanState :=
  scanLoop f current (f.length + 1) { index := index, serial := serial, pos := 4 }

/-- The state of a freshly constructed temporary-mode cache after `open()`:
segment 0 holds only the magic (written by `__init__`), segment 1 is absent,
the scan of segment 0 leaves an empty index and append position 4. -/
def freshCache (limit : Nat) : Cache :=
  { file0 := magicB, file1 := [], index := [], current := false, pos := 4,
    limit := limit }

-- Sanity check: scanning a magic-only file yields an empty index and
-- append position 4, matching `freshCache`.
example : read_index [] [] magicB false = { index := [], serial := [], pos := 4 } := by
  decide

/-! ## Byte-level and association-list lemmas -/

theorem packU32_length (n : Nat) : (packU32 n).length = 4 := rfl

theorem packU16_length (n : Nat) : (packU16 n).length = 2 := rfl

theorem beNat_packU32 (n : Nat) (h : n < 4294967296) : beNat (packU32 n) = n := by
  simp only [beNat, packU32, List.foldl]
  omega

theorem beNat_packU16 (n : Nat) (h : n < 65536) : beNat (packU16 n) = n := by
  simp only [beNat, packU16, List.foldl]
  omega

theorem sInt32_packU32 (n : Nat) (h : n < 2147483648) :
    sInt32 (packU32 n) = (n : Int) := by
  unfold sInt32
  rw [beNat_packU32 n (by omega)]
  simp [h]

theorem writeBytes_pre_length (f : List Nat) (off : Nat) :
    (f.take off ++ List.replicate (off - f.length) 0).length = off := by
  simp [List.length_take]
  omega

theorem writeBytes_drop (f : List Nat) (off : Nat) (l : List Nat) :
    (writeBytes f off l).drop off = l ++ f.drop (off + l.length) := by
  unfold writeBytes
  exact List.drop_left' (writeBytes_pre_length f off)

theorem writeBytes_length (f : List Nat) (off : Nat) (l : List Nat) :
    (writeBytes f off l).length = max f.length (off + l.length) := by
  unfold writeBytes
  simp [List.length_take]
  omega

/-- Reading back a chunk of a just-written record: if the written bytes are
`pre ++ (mid ++ post)`, reading `mid.length` bytes at relative offset
`pre.length` yields `mid`. -/
theorem read_write_chunk (f : List Nat) (off a n : Nat) (L pre mid post : List Nat)
    (hL : L = pre ++ (mid ++ post)) (ha : a = off + pre.length) (hn : n = mid.length) :
    readBytes (writeBytes f off L) a n = mid := by
  subst hL ha hn
  unfold readBytes
  rw [← List.drop_drop, writeBytes_drop, List.append_assoc, List.drop_left,
      List.append_assoc]
  exact List.take_left mid _

/-- A write at or beyond `off` does not disturb reads that end at or before
`off` (and inside the old file). -/
theorem read_write_below (f : List Nat) (off a n : Nat) (l : List Nat)
    (h1 : a + n ≤ off) (h2 : a + n ≤ f.length) :
    readBytes (writeBytes f off l) a n = readBytes f a n := by
  unfold readBytes writeBytes
  rw [List.drop_append_of_le_length (by simp [List.length_take]; omega),
      List.take_append_of_le_length (by simp [List.length_take]; omega),
      List.drop_append_of_le_length (by simp [List.length_take]; omega),
      List.take_append_of_le_length (by simp [List.length_take]; omega),
      List.drop_take, List.take_take]
  congr 1
  omega

/-- A write strictly below `a` does not disturb reads starting at `a`. -/
theorem read_write_above (f : List Nat) (off a n : Nat) (l : List Nat)
    (h1 : off + l.length ≤ a) (h2 : off ≤ f.length) :
    readBytes (writeBytes f off l) a n = readBytes f a n := by
  unfold readBytes writeBytes
  have hrepl : off - f.length = 0 := by omega
  rw [hrepl]
  simp only [List.replicate_zero, List.append_nil]
  rw [← List.append_assoc]
  have hx : (f.take off ++ l).length = off + l.length := by
    simp [List.length_take]
    omega
  have ha2 : a = (f.take off ++ l).length + (a - off - l.length) := by omega
  rw [ha2, List.drop_append, List.drop_drop]
  congr 2
  omega

theorem lookupA_insertA_self {β : Type} (l : List (List Nat × β)) (k : List Nat) (v : β) :
    lookupA (insertA l k v) k = some v := by
  simp [insertA, lookupA]

theorem lookupA_removeA_ne {β : Type} (l : List (List Nat × β)) (k k2 : List Nat)
    (h : k2 ≠ k) : lookupA (removeA l k) k2 = lookupA l k2 := by
  induction l with
  | nil => rfl
  | cons hd tl ih =>
    obtain ⟨a, b⟩ := hd
    by_cases hak : a = k
    · have hak2 : a ≠ k2 := fun he => h (he ▸ hak)
      simp only [removeA, lookupA, if_pos hak, if_neg hak2]
      exact ih
    · simp only [removeA, lookupA, if_neg hak]
      by_cases hak2 : a = k2
      · simp only [lookupA, if_pos hak2]
      · simp only [lookupA, if_neg hak2]
        exact ih

theorem lookupA_removeA_self {β : Type} (l : List (List Nat × β)) (k : List Nat) :
    lookupA (removeA l k) k = none := by
  induction l with
  | nil => rfl
  | cons hd tl ih =>
    by_cases hk : hd.1 = k <;> simp [removeA, hk, lookupA, ih]

theorem lookupA_insertA_ne {β : Type} (l : List (List Nat × β)) (k k2 : List Nat) (v : β)
    (h : k2 ≠ k) : lookupA (insertA l k v) k2 = lookupA l k2 := by
  have hkk : k ≠ k2 := fun he => h he.symm
  simp only [insertA, lookupA, if_neg hkk]
  exact lookupA_removeA_ne l k k2 h

theorem lookupA_removeA_sub {β : Type} (l : List (List Nat × β)) (k k2 : List Nat)
    (v : β) (h : lookupA (removeA l k) k2 = some v) : lookupA l k2 = some v := by
  by_cases hk : k2 = k
  · rw [hk, lookupA_removeA_self] at h
    exact absurd h (by simp)
  · rwa [lookupA_removeA_ne l k k2 hk] at h

/-! ## Header slicing -/

/-- Reading a chunk out of a concatenation at the exact offset. -/
theorem slice_of_append (L pre mid post : List Nat) (k n : Nat)
    (hL : L = pre ++ (mid ++ post)) (hk : k = pre.length) (hn : n = mid.length) :
    readBytes L k n = mid := by
  subst hL hk hn
  unfold readBytes
  rw [List.drop_left]
  exact List.take_left mid post

theorem drop_of_append (L pre post : List Nat) (k : Nat)
    (hL : L = pre ++ post) (hk : k = pre.length) : L.drop k = post := by
  subst hL hk
  exact List.drop_left pre post

theorem take_of_append (L pre post : List Nat) (k : Nat)
    (hL : L = pre ++ post) (hk : k = pre.length) : L.take k = pre := by
  subst hL hk
  exact List.take_left pre post

/-- All the fields that `load`/`update`/`modifiedInVersion` pick out of a
27-byte header. -/
theorem hdr_fields (oid s : List Nat) (st tl vl dl : Nat)
    (hoid : oid.length = 8) (hs : s.length = 8) :
    (oid ++ [st] ++ packU32 tl ++ packU16 vl ++ packU32 dl ++ s).length = 27 ∧
    (oid ++ [st] ++ packU32 tl ++ packU16 vl ++ packU32 dl ++ s).take 8 = oid ∧
    ((oid ++ [st] ++ packU32 tl ++ packU16 vl ++ packU32 dl ++ s).drop 8).take 1 = [st] ∧
    readBytes (oid ++ [st] ++ packU32 tl ++ packU16 vl ++ packU32 dl ++ s) 9 4
      = packU32 tl ∧
    readBytes (oid ++ [st] ++ packU32 tl ++ packU16 vl ++ packU32 dl ++ s) 13 2
      = packU16 vl ∧
    readBytes (oid ++ [st] ++ packU32 tl ++ packU16 vl ++ packU32 dl ++ s) 15 4
      = packU32 dl ∧
    (oid ++ [st] ++ packU32 tl ++ packU16 vl ++ packU32 dl ++ s).drop 19 = s := by
  refine ⟨?_, ?_, ?_, ?_, ?_, ?_, ?_⟩
  · simp [packU32, packU16, hoid, hs]
  · exact take_of_append _ oid ([st] ++ (packU32 tl ++ (packU16 vl ++ (packU32 dl ++ s))))
      8 (by simp [List.append_assoc]) hoid.symm
  · exact slice_of_append _ oid [st] (packU32 tl ++ (packU16 vl ++ (packU32 dl ++ s)))
      8 1 (by simp [List.append_assoc]) hoid.symm rfl
  · exact slice_of_append _ (oid ++ [st]) (packU32 tl) (packU16 vl ++ (packU32 dl ++ s))
      9 4 (by simp [List.append_assoc]) (by simp [hoid]) (by simp [packU32])
  · exact slice_of_append _ (oid ++ [st] ++ packU32 tl) (packU16 vl) (packU32 dl ++ s)
      13 2 (by simp [List.append_assoc]) (by simp [hoid, packU32]) (by simp [packU16])
  · exact slice_of_append _ (oid ++ [st] ++ packU32 tl ++ packU16 vl) (packU32 dl) s
      15 4 (by simp [List.append_assoc]) (by simp [hoid, packU32, packU16])
      (by simp [packU32])
  · exact drop_of_append _ (oid ++ [st] ++ packU32 tl ++ packU16 vl ++ packU32 dl) s 19
      (by simp [List.append_assoc]) (by simp [hoid, packU32, packU16])

/-- `parseHdr` on a well-formed header recovers the encoded fields. -/
theorem parseHdr_hdr (oid s : List Nat) (st tl vl dl : Nat)
    (hoid : oid.length = 8) (hs : s.length = 8) (hst : st = 110 ∨ st = 118)
    (htl : tl < 2147483648) (hvl : vl < 65536) (hdl : dl < 2147483648) :
    parseHdr (oid ++ [st] ++ packU32 tl ++ packU16 vl ++ packU32 dl ++ s) oid
      = ((tl : Int), ((vl : Int), (dl : Int))) := by
  obtain ⟨h1, h2, h3, h4, h5, h6, h7⟩ := hdr_fields oid s st tl vl dl hoid hs
  unfold parseHdr
  rw [if_pos ⟨h1, by rw [h3]; rcases hst with h | h <;> simp [h], h2⟩]
  rw [h4, h5, h6, sInt32_packU32 tl htl, sInt32_packU32 dl hdl, beNat_packU16 vl hvl]

/-! ## Facts about `_store` and reading back stored records -/

theorem _store_index (c : Cache) (oid p s version pv sv : List Nat) :
    (_store c oid p s version pv sv).index
      = insertA c.index oid (if c.current then -(c.pos : Int) else (c.pos : Int)) := by
  cases hc : c.current <;> simp [_store, putCurFile, hc]

theorem _store_fileAt (c : Cache) (oid p s version pv sv : List Nat)
    (hpos : 0 < c.pos) (hs : s ≠ []) :
    fileAt (_store c oid p s version pv sv)
        (if c.current then -(c.pos : Int) else (c.pos : Int))
      = writeBytes (curFile c) c.pos (recBytes oid p s version pv sv) := by
  have h0 : ¬((c.pos : Int) < 0) := by omega
  have h1 : -(c.pos : Int) < 0 := by omega
  cases hc : c.current <;> simp [_store, putCurFile, fileAt, curFile, hc, hs, h0, h1]

theorem _store_entry_natAbs (c : Cache) :
    (if c.current then -(c.pos : Int) else (c.pos : Int)).natAbs = c.pos := by
  cases hc : c.current <;> simp [hc]

theorem load_store_noversion_data (c : Cache) (oid p s pv sv : List Nat)
    (hoid : oid.length = 8) (hs : s.length = 8) (hpos : 0 < c.pos)
    (hsz : 31 + p.length < 2147483648) (hp : p ≠ []) :
    load (_store c oid p s [] pv sv) oid []
      = (some (p, s), _store c oid p s [] pv sv) := by
  have hsne : s ≠ [] := by intro h; rw [h] at hs; simp at hs
  have hT : recTlen p [] pv = 31 + p.length := by simp [recTlen]
  have hlk : lookupA (_store c oid p s [] pv sv).index oid
      = some (if c.current then -(c.pos : Int) else (c.pos : Int)) := by
    rw [_store_index]; exact lookupA_insertA_self _ _ _
  have hfile := _store_fileAt c oid p s [] pv sv hpos hsne
  have hh : readBytes (writeBytes (curFile c) c.pos (recBytes oid p s [] pv sv)) c.pos 27
      = oid ++ [118] ++ packU32 (recTlen p [] pv) ++ packU16 0 ++ packU32 p.length ++ s :=
    read_write_chunk _ c.pos c.pos 27 _ []
      (oid ++ [118] ++ packU32 (recTlen p [] pv) ++ packU16 0 ++ packU32 p.length ++ s)
      (p ++ packU32 (recTlen p [] pv))
      (by simp [recBytes, List.append_assoc]) (by simp)
      (by simp [packU32, packU16, hoid, hs])
  have hparse := parseHdr_hdr oid s 118 (recTlen p [] pv) 0 p.length hoid hs (Or.inr rfl)
      (by omega) (by omega) (by omega)
  obtain ⟨hf1, hf2, hf3, hf4, hf5, hf6, hf7⟩ :=
    hdr_fields oid s 118 (recTlen p [] pv) 0 p.length hoid hs
  have hd : readBytes (writeBytes (curFile c) c.pos (recBytes oid p s [] pv sv))
      (c.pos + 27) p.length = p :=
    read_write_chunk _ c.pos _ p.length _
      (oid ++ [118] ++ packU32 (recTlen p [] pv) ++ packU16 0 ++ packU32 p.length ++ s)
      p (packU32 (recTlen p [] pv))
      (by simp [recBytes, List.append_assoc]) (by simp [packU32, packU16, hoid, hs]) rfl
  simp only [load, hlk, _store_entry_natAbs, hfile, hh, hparse, Int.toNat_natCast,
    hd, hf7]
  split
  · next hcond => exfalso; rcases hcond with h | h | h | h <;> omega
  split
  · next hcond => exact absurd rfl hcond.2
  split
  · next hcond => exact absurd (hf3.symm.trans hcond.1) (by decide)
  split
  · split
    · rfl
    · next hdl =>
      exfalso
      apply hdl
      intro h0
      have : p.length = 0 := by omega
      exact hp (List.length_eq_zero.mp this)
  · next hcond => exact absurd (Or.inr trivial) hcond

theorem load_store_noversion_nil (c : Cache) (oid s pv sv : List Nat)
    (hoid : oid.length = 8) (hs : s.length = 8) (hpos : 0 < c.pos) :
    load (_store c oid [] s [] pv sv) oid []
      = (none, _store c oid [] s [] pv sv) := by
  have hsne : s ≠ [] := by intro h; rw [h] at hs; simp at hs
  have hT : recTlen [] [] pv = 31 := by simp [recTlen]
  have hlk : lookupA (_store c oid [] s [] pv sv).index oid
      = some (if c.current then -(c.pos : Int) else (c.pos : Int)) := by
    rw [_store_index]; exact lookupA_insertA_self _ _ _
  have hfile := _store_fileAt c oid [] s [] pv sv hpos hsne
  have hh : readBytes (writeBytes (curFile c) c.pos (recBytes oid [] s [] pv sv)) c.pos 27
      = oid ++ [118] ++ packU32 (recTlen [] [] pv) ++ packU16 0 ++ packU32 0 ++ s :=
    read_write_chunk _ c.pos c.pos 27 _ []
      (oid ++ [118] ++ packU32 (recTlen [] [] pv) ++ packU16 0 ++ packU32 0 ++ s)
      (packU32 (recTlen [] [] pv))
      (by simp [recBytes, List.append_assoc]) (by simp)
      (by simp [packU32, packU16, hoid, hs])
  have hparse := parseHdr_hdr oid s 118 (recTlen [] [] pv) 0 0 hoid hs (Or.inr rfl)
      (by omega) (by omega) (by omega)
  obtain ⟨hf1, hf2, hf3, hf4, hf5, hf6, hf7⟩ :=
    hdr_fields oid s 118 (recTlen [] [] pv) 0 0 hoid hs
  have hz : packU32 (List.length ([] : List Nat)) = packU32 0 := rfl
  simp only [load, hlk, _store_entry_natAbs, hfile, hh, hparse, Int.toNat_natCast]
  split
  · next hcond => exfalso; rcases hcond with h | h | h | h <;> omega
  split
  · next hcond => exact absurd rfl hcond.2
  split
  · next hcond => exact absurd (hf3.symm.trans hcond.1) (by decide)
  split
  · split
    · next hdl => exfalso; omega
    · rfl
  · next hcond => exact absurd (Or.inr trivial) hcond

theorem load_store_ver_match (c : Cache) (oid p s version pv sv : List Nat)
    (hoid : oid.length = 8) (hs : s.length = 8) (hsv : sv.length = 8)
    (hv : version ≠ []) (hv16 : version.length < 65536) (hpos : 0 < c.pos)
    (hsz : 43 + p.length + version.length + pv.length < 2147483648) :
    load (_store c oid p s version pv sv) oid version
      = (some (pv, sv), _store c oid p s version pv sv) := by
  have hsne : s ≠ [] := by intro h; rw [h] at hs; simp at hs
  have hvlen : 0 < version.length := List.length_pos.mpr hv
  have hT : recTlen p version pv = 43 + p.length + version.length + pv.length := by
    simp only [recTlen, if_neg hv]
    omega
  have hlk : lookupA (_store c oid p s version pv sv).index oid
      = some (if c.current then -(c.pos : Int) else (c.pos : Int)) := by
    rw [_store_index]; exact lookupA_insertA_self _ _ _
  have hfile := _store_fileAt c oid p s version pv sv hpos hsne
  have hh : readBytes (writeBytes (curFile c) c.pos (recBytes oid p s version pv sv))
      c.pos 27
      = oid ++ [118] ++ packU32 (recTlen p version pv) ++ packU16 version.length
          ++ packU32 p.length ++ s :=
    read_write_chunk _ c.pos c.pos 27 _ []
      (oid ++ [118] ++ packU32 (recTlen p version pv) ++ packU16 version.length
        ++ packU32 p.length ++ s)
      (p ++ version ++ packU32 pv.length ++ pv ++ sv ++ packU32 (recTlen p version pv))
      (by simp [recBytes, hv, List.append_assoc]) (by simp)
      (by simp [packU32, packU16, hoid, hs])
  have hparse := parseHdr_hdr oid s 118 (recTlen p version pv) version.length p.length
      hoid hs (Or.inr rfl) (by omega) (by omega) (by omega)
  obtain ⟨hf1, hf2, hf3, hf4, hf5, hf6, hf7⟩ :=
    hdr_fields oid s 118 (recTlen p version pv) version.length p.length hoid hs
  have hd : readBytes (writeBytes (curFile c) c.pos (recBytes oid p s version pv sv))
      (c.pos + 27) p.length = p :=
    read_write_chunk _ c.pos _ p.length _
      (oid ++ [118] ++ packU32 (recTlen p version pv) ++ packU16 version.length
        ++ packU32 p.length ++ s)
      p (version ++ packU32 pv.length ++ pv ++ sv ++ packU32 (recTlen p version pv))
      (by simp [recBytes, hv, List.append_assoc])
      (by rw [hf1]) rfl
  have hver : readBytes (writeBytes (curFile c) c.pos (recBytes oid p s version pv sv))
      (c.pos + 27 + p.length) version.length = version :=
    read_write_chunk _ c.pos _ version.length _
      ((oid ++ [118] ++ packU32 (recTlen p version pv) ++ packU16 version.length
        ++ packU32 p.length ++ s) ++ p)
      version (packU32 pv.length ++ pv ++ sv ++ packU32 (recTlen p version pv))
      (by simp [recBytes, hv, List.append_assoc])
      (by simp only [List.length_append, hf1]; omega) rfl
  have hvdl : readBytes (writeBytes (curFile c) c.pos (recBytes oid p s version pv sv))
      (c.pos + 27 + p.length + version.length) 4 = packU32 pv.length :=
    read_write_chunk _ c.pos _ 4 _
      ((oid ++ [118] ++ packU32 (recTlen p version pv) ++ packU16 version.length
        ++ packU32 p.length ++ s) ++ p ++ version)
      (packU32 pv.length) (pv ++ sv ++ packU32 (recTlen p version pv))
      (by simp [recBytes, hv, List.append_assoc])
      (by simp only [List.length_append, hf1]; omega) (packU32_length _).symm
  have hpv : readBytes (writeBytes (curFile c) c.pos (recBytes oid p s version pv sv))
      (c.pos + 27 + p.length + version.length + 4) pv.length = pv :=
    read_write_chunk _ c.pos _ pv.length _
      ((oid ++ [118] ++ packU32 (recTlen p version pv) ++ packU16 version.length
        ++ packU32 p.length ++ s) ++ p ++ version ++ packU32 pv.length)
      pv (sv ++ packU32 (recTlen p version pv))
      (by simp [recBytes, hv, List.append_assoc])
      (by simp only [List.length_append, hf1, packU32_length]; omega) rfl
  have hsv2 : readBytes (writeBytes (curFile c) c.pos (recBytes oid p s version pv sv))
      (c.pos + 27 + p.length + version.length + 4 + pv.length) 8 = sv :=
    read_write_chunk _ c.pos _ 8 _
      ((oid ++ [118] ++ packU32 (recTlen p version pv) ++ packU16 version.length
        ++ packU32 p.length ++ s) ++ p ++ version ++ packU32 pv.length ++ pv)
      sv (packU32 (recTlen p version pv))
      (by simp [recBytes, hv, List.append_assoc])
      (by simp only [List.length_append, hf1, packU32_length]; omega) hsv.symm
  have hsi : sInt32 (packU32 pv.length) = (pv.length : Int) :=
    sInt32_packU32 _ (by omega)
  simp only [load, hlk, _store_entry_natAbs, hfile, hh, hparse, Int.toNat_natCast,
    hver, hvdl, hsi, hpv, hsv2]
  split
  · next hcond => exfalso; rcases hcond with h | h | h | h <;> omega
  split
  · next hcond => exact absurd (hf3.symm.trans hcond.1) (by decide)
  split
  · next hcond => exact absurd (hf3.symm.trans hcond.1) (by decide)
  split
  · next hcond =>
    exfalso
    rcases hcond with h | h
    · omega
    · exact hv h
  split
  · next hcond => exact absurd rfl hcond
  split
  · next hcond => exfalso; omega
  · rfl

theorem load_store_ver_other_data (c : Cache) (oid p s version pv sv q : List Nat)
    (hoid : oid.length = 8) (hs : s.length = 8)
    (hv : version ≠ []) (hv16 : version.length < 65536) (hpos : 0 < c.pos)
    (hsz : 43 + p.length + version.length + pv.length < 2147483648)
    (hq : q ≠ version) (hp : p ≠ []) :
    load (_store c oid p s version pv sv) oid q
      = (some (p, s), _store c oid p s version pv sv) := by
  have hsne : s ≠ [] := by intro h; rw [h] at hs; simp at hs
  have hvlen : 0 < version.length := List.length_pos.mpr hv
  have hplen : 0 < p.length := List.length_pos.mpr hp
  have hT : recTlen p version pv = 43 + p.length + version.length + pv.length := by
    simp only [recTlen, if_neg hv]
    omega
  have hlk : lookupA (_store c oid p s version pv sv).index oid
      = some (if c.current then -(c.pos : Int) else (c.pos : Int)) := by
    rw [_store_index]; exact lookupA_insertA_self _ _ _
  have hfile := _store_fileAt c oid p s version pv sv hpos hsne
  have hh : readBytes (writeBytes (curFile c) c.pos (recBytes oid p s version pv sv))
      c.pos 27
      = oid ++ [118] ++ packU32 (recTlen p version pv) ++ packU16 version.length
          ++ packU32 p.length ++ s :=
    read_write_chunk _ c.pos c.pos 27 _ []
      (oid ++ [118] ++ packU32 (recTlen p version pv) ++ packU16 version.length
        ++ packU32 p.length ++ s)
      (p ++ version ++ packU32 pv.length ++ pv ++ sv ++ packU32 (recTlen p version pv))
      (by simp [recBytes, hv, List.append_assoc]) (by simp)
      (by simp [packU32, packU16, hoid, hs])
  have hparse := parseHdr_hdr oid s 118 (recTlen p version pv) version.length p.length
      hoid hs (Or.inr rfl) (by omega) (by omega) (by omega)
  obtain ⟨hf1, hf2, hf3, hf4, hf5, hf6, hf7⟩ :=
    hdr_fields oid s 118 (recTlen p version pv) version.length p.length hoid hs
  have hd : readBytes (writeBytes (curFile c) c.pos (recBytes oid p s version pv sv))
      (c.pos + 27) p.length = p :=
    read_write_chunk _ c.pos _ p.length _
      (oid ++ [118] ++ packU32 (recTlen p version pv) ++ packU16 version.length
        ++ packU32 p.length ++ s)
      p (version ++ packU32 pv.length ++ pv ++ sv ++ packU32 (recTlen p version pv))
      (by simp [recBytes, hv, List.append_assoc])
      (by rw [hf1]) rfl
  have hver : readBytes (writeBytes (curFile c) c.pos (recBytes oid p s version pv sv))
      (c.pos + 27 + p.length) version.length = version :=
    read_write_chunk _ c.pos _ version.length _
      ((oid ++ [118] ++ packU32 (recTlen p version pv) ++ packU16 version.length
        ++ packU32 p.length ++ s) ++ p)
      version (packU32 pv.length ++ pv ++ sv ++ packU32 (recTlen p version pv))
      (by simp [recBytes, hv, List.append_assoc])
      (by simp only [List.length_append, hf1]; omega) rfl
  simp only [load, hlk, _store_entry_natAbs, hfile, hh, hparse, Int.toNat_natCast,
    hver, hd, hf7]
  split
  · next hcond => exfalso; rcases hcond with h | h | h | h <;> omega
  split
  · next hcond => exact absurd (hf3.symm.trans hcond.1) (by decide)
  split
  · next hcond => exact absurd (hf3.symm.trans hcond.1) (by decide)
  by_cases hq0 : q = []
  · subst hq0
    rw [if_pos (Or.inr rfl : ((version.length : Int) = 0 ∨ ([] : List Nat) = [])),
      if_pos (show ((p.length : Int)) ≠ 0 by omega)]
  · rw [if_neg (show ¬(((version.length : Int)) = 0 ∨ q = []) by
        rintro (h | h)
        · omega
        · exact hq0 h)]
    rw [if_pos (show ((p.length : Int)) ≠ 0 by omega)]

theorem load_store_ver_other_nil (c : Cache) (oid s version pv sv q : List Nat)
    (hoid : oid.length = 8) (hs : s.length = 8)
    (hv : version ≠ []) (hv16 : version.length < 65536) (hpos : 0 < c.pos)
    (hsz : 43 + version.length + pv.length < 2147483648)
    (hq : q ≠ version) :
    load (_store c oid [] s version pv sv) oid q
      = (none, _store c oid [] s version pv sv) := by
  have hsne : s ≠ [] := by intro h; rw [h] at hs; simp at hs
  have hvlen : 0 < version.length := List.length_pos.mpr hv
  have hT : recTlen [] version pv = 43 + version.length + pv.length := by
    simp only [recTlen, if_neg hv]
    simp
    omega
  have hlk : lookupA (_store c oid [] s version pv sv).index oid
      = some (if c.current then -(c.pos : Int) else (c.pos : Int)) := by
    rw [_store_index]; exact lookupA_insertA_self _ _ _
  have hfile := _store_fileAt c oid [] s version pv sv hpos hsne
  have hh : readBytes (writeBytes (curFile c) c.pos (recBytes oid [] s version pv sv))
      c.pos 27
      = oid ++ [118] ++ packU32 (recTlen [] version pv) ++ packU16 version.length
          ++ packU32 0 ++ s :=
    read_write_chunk _ c.pos c.pos 27 _ []
      (oid ++ [118] ++ packU32 (recTlen [] version pv) ++ packU16 version.length
        ++ packU32 0 ++ s)
      (version ++ packU32 pv.length ++ pv ++ sv ++ packU32 (recTlen [] version pv))
      (by simp [recBytes, hv, List.append_assoc]) (by simp)
      (by simp [packU32, packU16, hoid, hs])
  have hparse := parseHdr_hdr oid s 118 (recTlen [] version pv) version.length 0
      hoid hs (Or.inr rfl) (by omega) (by omega) (by omega)
  obtain ⟨hf1, hf2, hf3, hf4, hf5, hf6, hf7⟩ :=
    hdr_fields oid s 118 (recTlen [] version pv) version.length 0 hoid hs
  have hver : readBytes (writeBytes (curFile c) c.pos (recBytes oid [] s version pv sv))
      (c.pos + 27 + 0) version.length = version :=
    read_write_chunk _ c.pos _ version.length _
      ((oid ++ [118] ++ packU32 (recTlen [] version pv) ++ packU16 version.length
        ++ packU32 0 ++ s))
      version (packU32 pv.length ++ pv ++ sv ++ packU32 (recTlen [] version pv))
      (by simp [recBytes, hv, List.append_assoc])
      (by rw [hf1]) rfl
  simp only [load, hlk, _store_entry_natAbs, hfile, hh, hparse, Int.toNat_natCast,
    hver]
  split
  · next hcond => exfalso; omega
  split
  · next hcond => exact absurd (hf3.symm.trans hcond.1) (by decide)
  split
  · next hcond => exact absurd (hf3.symm.trans hcond.1) (by decide)
  by_cases hq0 : q = []
  · subst hq0
    rw [if_pos (Or.inr rfl : ((version.length : Int) = 0 ∨ ([] : List Nat) = [])),
      if_neg (show ¬(((0 : Nat) : Int) ≠ 0) by omega)]
  · rw [if_neg (show ¬(((version.length : Int)) = 0 ∨ q = []) by
        rintro (h | h)
        · omega
        · exact hq0 h)]
    rw [if_neg (show ¬(((0 : Nat) : Int) ≠ 0) by omega)]

/-! ## Concrete inputs shared by the counterexamples and witnesses -/

/-- A concrete 8-byte oid. -/
def oidA : List Nat := [1, 2, 3, 4, 5, 6, 7, 8]

/-- A second concrete 8-byte oid. -/
def oidB : List Nat := [9, 9, 9, 9, 9, 9, 9, 9]

/-- A concrete 8-byte serial. -/
def serA : List Nat := [11, 12, 13, 14, 15, 16, 17, 18]

/-- A concrete 8-byte version serial. -/
def svA : List Nat := [21, 22, 23, 24, 25, 26, 27, 28]

/-- The version name "v1". -/
def verA : List Nat := [118, 49]

/-- The version name "v2". -/
def verB : List Nat := [118, 50]

/-! ## C5 -/

/-- C5 counterexample: the claim allows an empty serial, but
`store(oid, "abc", "", "", none, none)` coerces the pair to
`('', 8 zero bytes)` (source: `if not s: p = ''; s = 8 zero bytes`), so the
subsequent `load(oid, "")` returns none, not `("abc", "")`. -/
theorem c5_counterexample :
    (load (store (freshCache 1000) oidA [97, 98, 99] [] [] [] []) oidA []).1 = none ∧
    (none : Option (List Nat × List Nat)) ≠ some ([97, 98, 99], []) := by
  decide

/-- C5 (amended): for every 8-byte oid, every NON-EMPTY data byte string and
every non-empty 8-byte serial (with the record length below 2^31 so that the
signed header field reads back positive), `store(oid, data, s, "", none,
none)` followed by `load(oid, "")` returns exactly `(data, s)`.  The
original claim also allowed empty data and an empty serial; both fail (see
the counterexample). -/
theorem c5_roundtrip (c : Cache) (oid d s : List Nat)
    (hoid : oid.length = 8) (hd : d ≠ []) (hs : s.length = 8)
    (hpos : 0 < c.pos) (hsz : 31 + d.length < 2147483648) :
    (load (store c oid d s [] [] []) oid []).1 = some (d, s) := by
  simp only [store]
  rw [load_store_noversion_data c oid d s [] [] hoid hs hpos hsz hd]

/-- Witness for C5 at a concrete input. -/
theorem c5_witness :
    0 < (freshCache 1000).pos ∧
    (load (store (freshCache 1000) oidA [97, 98, 99] serA [] [] []) oidA []).1
      = some ([97, 98, 99], serA) :=
  ⟨by decide,
   c5_roundtrip (freshCache 1000) oidA [97, 98, 99] serA (by decide) (by decide)
     (by decide) (by decide) (by decide)⟩

/-! ## C6 -/

/-- C6 counterexample: the claim says `load(oid, "")` returns `(d, s)`
unconditionally after `store(oid, d, s, V, dv, sv)`, but for empty `d` the
load returns none (`if dlen: ... else: return None`). -/
theorem c6_counterexample :
    (load (store (freshCache 1000) oidA [] serA verA [65, 66] svA) oidA []).1 = none ∧
    (none : Option (List Nat × List Nat)) ≠ some ([], serA) := by
  decide

/-- C6 (amended): after `store(oid, d, s, V, dv, sv)` with an 8-byte oid,
8-byte serials, non-empty version `V` (shorter than 2^16, total record
length below 2^31): `load(oid, V)` returns `(dv, sv)`; `load(oid, "")`
returns `(d, s)` if `d` is non-empty and none otherwise; and for any
`V2 ≠ V`, `load(oid, V2)` likewise returns `(d, s)` if `d` is non-empty and
none otherwise.  The original claim asserted `load(oid, "") = (d, s)`
unconditionally, which fails for empty `d` (see the counterexample). -/
theorem c6_versioned_roundtrip (c : Cache) (oid d s V dv sv V2 : List Nat)
    (hoid : oid.length = 8) (hs : s.length = 8) (hsv : sv.length = 8)
    (hV : V ≠ []) (hV16 : V.length < 65536) (hpos : 0 < c.pos)
    (hsz : 43 + d.length + V.length + dv.length < 2147483648) (hV2 : V2 ≠ V) :
    (load (store c oid d s V dv sv) oid V).1 = some (dv, sv) ∧
    (load (store c oid d s V dv sv) oid []).1
      = (if d = [] then none else some (d, s)) ∧
    (load (store c oid d s V dv sv) oid V2).1
      = (if d = [] then none else some (d, s)) := by
  simp only [store]
  refine ⟨?_, ?_, ?_⟩
  · rw [load_store_ver_match c oid d s V dv sv hoid hs hsv hV hV16 hpos hsz]
  · by_cases hd0 : d = []
    · subst hd0
      rw [load_store_ver_other_nil c oid s V dv sv [] hoid hs hV hV16 hpos
          (by simp only [List.length_nil] at hsz; omega) (fun h => hV h.symm),
        if_pos rfl]
    · rw [load_store_ver_other_data c oid d s V dv sv [] hoid hs hV hV16 hpos hsz
          (fun h => hV h.symm) hd0, if_neg hd0]
  · by_cases hd0 : d = []
    · subst hd0
      rw [load_store_ver_other_nil c oid s V dv sv V2 hoid hs hV hV16 hpos
          (by simp only [List.length_nil] at hsz; omega) hV2,
        if_pos rfl]
    · rw [load_store_ver_other_data c oid d s V dv sv V2 hoid hs hV hV16 hpos hsz
          hV2 hd0, if_neg hd0]

/-- Witness for C6 at a concrete input. -/
theorem c6_witness :
    (verB ≠ verA) ∧
    ((load (store (freshCache 1000) oidA [97, 98, 99] serA verA [65, 66] svA)
        oidA verA).1 = some ([65, 66], svA) ∧
     (load (store (freshCache 1000) oidA [97, 98, 99] serA verA [65, 66] svA)
        oidA []).1 = (if ([97, 98, 99] : List Nat) = [] then none
                      else some ([97, 98, 99], serA)) ∧
     (load (store (freshCache 1000) oidA [97, 98, 99] serA verA [65, 66] svA)
        oidA verB).1 = (if ([97, 98, 99] : List Nat) = [] then none
                        else some ([97, 98, 99], serA))) :=
  ⟨by decide,
   c6_versioned_roundtrip (freshCache 1000) oidA [97, 98, 99] serA verA [65, 66] svA
     verB (by decide) (by decide) (by decide) (by decide) (by decide) (by decide)
     (by decide) (by decide)⟩

/-! ## C7 -/

/-- C7: `checkSize(n)` rotates exactly when `append_position + n > limit`
and performs no state change otherwise; on rotation it flips the
active-segment selector, replaces the new active segment's file with a
fresh one containing only the magic, sets the append position to 4, and
leaves the previously-active segment (now the alternate) untouched. -/
theorem c7_checkSize (c : Cache) (n : Nat) :
    (c.limit < c.pos + n →
      (checkSize c n).current = !c.current ∧
      curFile (checkSize c n) = magicB ∧
      (checkSize c n).pos = 4 ∧
      (if c.current then (checkSize c n).file1 else (checkSize c n).file0)
        = (if c.current then c.file1 else c.file0) ∧
      (checkSize c n).index = c.index ∧
      (checkSize c n).limit = c.limit) ∧
    (¬ c.limit < c.pos + n → checkSize c n = c) := by
  constructor
  · intro h
    cases hc : c.current <;> simp [checkSize, curFile, h, hc]
  · intro h
    simp [checkSize, h]

/-- Witness for C7 at a concrete input (both the rotation branch and, via a
second application, the no-change branch). -/
theorem c7_witness :
    ((freshCache 10).limit < (freshCache 10).pos + 100 ∧
      (checkSize (freshCache 10) 100).current = !(freshCache 10).current ∧
      curFile (checkSize (freshCache 10) 100) = magicB ∧
      (checkSize (freshCache 10) 100).pos = 4) ∧
    (¬ (freshCache 1000).limit < (freshCache 1000).pos + 100 ∧
      checkSize (freshCache 1000) 100 = freshCache 1000) :=
  ⟨⟨by decide, ((c7_checkSize (freshCache 10) 100).1 (by decide)).1,
    ((c7_checkSize (freshCache 10) 100).1 (by decide)).2.1,
    ((c7_checkSize (freshCache 10) 100).1 (by decide)).2.2.1⟩,
   ⟨by decide, (c7_checkSize (freshCache 1000) 100).2 (by decide)⟩⟩

/-! ## C10 -/

/-- C10: `load` never writes to either segment file and leaves the append
position, the active-segment selector and the limit unchanged; the only
state it may mutate is the index, and only by removing the entry for the
queried oid — lookups of every other oid are unaffected. -/
theorem c10_load_frame (c : Cache) (oid version : List Nat) :
    (load c oid version).2.file0 = c.file0 ∧
    (load c oid version).2.file1 = c.file1 ∧
    (load c oid version).2.pos = c.pos ∧
    (load c oid version).2.current = c.current ∧
    (load c oid version).2.limit = c.limit ∧
    ((load c oid version).2.index = c.index ∨
      (load c oid version).2.index = removeA c.index oid) ∧
    (∀ oid2, oid2 ≠ oid →
      lookupA (load c oid version).2.index oid2 = lookupA c.index oid2) := by
  unfold load
  cases hlk : lookupA c.index oid with
  | none => simp
  | some p =>
    simp only []
    split
    all_goals try split
    all_goals try split
    all_goals try split
    all_goals try split
    all_goals try split
    all_goals
      refine ⟨rfl, rfl, rfl, rfl, rfl, ?_, ?_⟩
    all_goals try exact Or.inl rfl
    all_goals try exact Or.inr rfl
    all_goals intro oid2 h2
    all_goals try rfl
    all_goals exact lookupA_removeA_ne c.index oid oid2 h2

theorem update_merge_eq (c : Cache) (oid serial version data : List Nat)
    (p0 : Int) (st tl vl dl : Nat) (s : List Nat)
    (hv : version ≠ [])
    (hlk : lookupA c.index oid = some p0)
    (hh : readBytes (fileAt c p0) p0.natAbs 27
        = oid ++ [st] ++ packU32 tl ++ packU16 vl ++ packU32 dl ++ s)
    (hoid : oid.length = 8) (hs : s.length = 8)
    (hst : st = 110 ∨ st = 118)
    (htl : tl < 2147483648) (hvl : vl < 65536) (hdl : dl < 2147483648)
    (hdl0 : 0 < dl) (hguard : vl + dl ≤ tl) :
    update c oid serial version data
      = _store c oid (readBytes (fileAt c p0) (p0.natAbs + 27) dl) s version data serial := by
  obtain ⟨hf1, hf2, hf3, hf4, hf5, hf6, hf7⟩ := hdr_fields oid s st tl vl dl hoid hs
  have hparse := parseHdr_hdr oid s st tl vl dl hoid hs hst htl hvl hdl
  simp only [update, hlk, hh, hparse, Int.toNat_natCast, hf7]
  rw [if_pos hv]
  split
  · next hcond => exfalso; rcases hcond with h | h | h | h <;> omega
  split
  · rfl
  · next hdl2 => exfalso; omega

/-- C9: if the index holds a well-formed record for `oid` with non-version
payload `d` (dlen > 0) and serial `s`, then `update(oid, sv, V, dv)` with
non-empty `V` appends a combined record preserving the non-version pair, so
that afterwards `load(oid, "")` returns `(d, s)` and `load(oid, V)` returns
`(dv, sv)`; and when no such record exists — the oid is absent, or the
header is malformed / the oid mismatches / dlen = 0 (all of which make the
parsed guard fail) — `update` emits a fresh record with empty non-version
payload carrying only the new version pair. -/
theorem c9_update_merge (c : Cache) (oid V dv sv : List Nat) (p0 : Int)
    (st tl vl dl : Nat) (s d : List Nat)
    (hoid : oid.length = 8) (hV : V ≠ []) (hV16 : V.length < 65536)
    (hsv : sv.length = 8) (hpos : 0 < c.pos)
    (hlk : lookupA c.index oid = some p0)
    (hh : readBytes (fileAt c p0) p0.natAbs 27
        = oid ++ [st] ++ packU32 tl ++ packU16 vl ++ packU32 dl ++ s)
    (hs : s.length = 8) (hst : st = 110 ∨ st = 118)
    (htl : tl < 2147483648) (hvl : vl < 65536) (hdl : dl < 2147483648)
    (hdl0 : 0 < dl) (hguard : vl + dl ≤ tl)
    (hd : readBytes (fileAt c p0) (p0.natAbs + 27) dl = d)
    (hdlen : d.length = dl)
    (hsz : 43 + d.length + V.length + dv.length < 2147483648) :
    (load (update c oid sv V dv) oid []).1 = some (d, s) ∧
    (load (update c oid sv V dv) oid V).1 = some (dv, sv) ∧
    (∀ c2 oid2 sv2 V2 dv2, V2 ≠ [] → lookupA c2.index oid2 = none →
      update c2 oid2 sv2 V2 dv2 = _store c2 oid2 [] [] V2 dv2 sv2) ∧
    (∀ c2 oid2 sv2 V2 dv2 p2, V2 ≠ [] → lookupA c2.index oid2 = some p2 →
      ((parseHdr (readBytes (fileAt c2 p2) p2.natAbs 27) oid2).1 ≤ 0 ∨
        (parseHdr (readBytes (fileAt c2 p2) p2.natAbs 27) oid2).2.1 < 0 ∨
        (parseHdr (readBytes (fileAt c2 p2) p2.natAbs 27) oid2).2.2 ≤ 0 ∨
        (parseHdr (readBytes (fileAt c2 p2) p2.natAbs 27) oid2).2.1
          + (parseHdr (readBytes (fileAt c2 p2) p2.natAbs 27) oid2).2.2
          > (parseHdr (readBytes (fileAt c2 p2) p2.natAbs 27) oid2).1) →
      update c2 oid2 sv2 V2 dv2 = _store c2 oid2 [] [] V2 dv2 sv2) := by
  have hdne : d ≠ [] := by
    intro h2
    rw [h2] at hdlen
    simp at hdlen
    omega
  have he := update_merge_eq c oid sv V dv p0 st tl vl dl s hV hlk hh hoid hs hst
    htl hvl hdl hdl0 hguard
  rw [hd] at he
  refine ⟨?_, ?_, ?_, ?_⟩
  · rw [he, load_store_ver_other_data c oid d s V dv sv [] hoid hs hV hV16 hpos hsz
      (fun h2 => hV h2.symm) hdne]
  · rw [he, load_store_ver_match c oid d s V dv sv hoid hs hsv hV hV16 hpos hsz]
  · intro c2 oid2 sv2 V2 dv2 hV2 hlk2
    simp only [update, hlk2]
    rw [if_pos hV2]
  · intro c2 oid2 sv2 V2 dv2 p2 hV2 hlk2 hbad
    simp only [update, hlk2]
    rw [if_pos hV2, if_pos hbad]

/-- The state after one plain store on a fresh cache (used by witnesses). -/
def cS1 : Cache := store (freshCache 1000) oidA [97, 98, 99] serA [] [] []

/-- Witness for C9 at a concrete input. -/
theorem c9_witness :
    lookupA cS1.index oidA = some 4 ∧
    (load (update cS1 oidA svA verA [65, 66]) oidA []).1 = some ([97, 98, 99], serA) ∧
    (load (update cS1 oidA svA verA [65, 66]) oidA verA).1 = some ([65, 66], svA) :=
  ⟨by decide,
   (c9_update_merge cS1 oidA verA [65, 66] svA 4 118 34 0 3 serA [97, 98, 99]
     (by decide) (by decide) (by decide) (by decide) (by decide) (by decide)
     (by decide) (by decide) (by decide) (by decide) (by decide) (by decide)
     (by decide) (by decide) (by decide) (by decide) (by decide)).1,
   (c9_update_merge cS1 oidA verA [65, 66] svA 4 118 34 0 3 serA [97, 98, 99]
     (by decide) (by decide) (by decide) (by decide) (by decide) (by decide)
     (by decide) (by decide) (by decide) (by decide) (by decide) (by decide)
     (by decide) (by decide) (by decide) (by decide) (by decide)).2.1⟩

/-- Witness for C10 at a concrete input. -/
theorem c10_witness :
    (oidB ≠ oidA) ∧
    lookupA (load cS1 oidA []).2.index oidB = lookupA cS1.index oidB :=
  ⟨by decide, (c10_load_frame cS1 oidA []).2.2.2.2.2.2 oidB (by decide)⟩

/-! ## C8 and the double-rotation trace -/

/-- Step 1 of the rotation trace: one store on a fresh cache with limit 40. -/
def cT1 : Cache := store (freshCache 40) oidA [97, 98] serA [] [] []

/-- Step 2: `checkSize` triggers the first rotation (37 + 10 > 40). -/
def cT2 : Cache := checkSize cT1 10

/-- Step 3: a store into the newly active segment 1. -/
def cT3 : Cache := store cT2 oidB [97, 98] serA [] [] []

/-- Step 4: a second rotation resets segment 0, leaving the index entry for
`oidA` dangling (it still points at offset 4 of the now magic-only
segment 0). -/
def cT4 : Cache := checkSize cT3 10

/-- C8 counterexample: the claim says every one of load, modifiedInVersion,
update and invalidate drops an index entry whose cached offset holds a
record with mismatching first 8 bytes.  After the double rotation, `oidA`'s
entry is exactly such a stale entry, yet `invalidate` returns without
touching the index (`if h != oid: return`), so the entry survives. -/
theorem c8_counterexample :
    lookupA cT4.index oidA = some 4 ∧
    readBytes (fileAt cT4 4) (4 : Int).natAbs 8 ≠ oidA ∧
    invalidate cT4 oidA [] = cT4 ∧
    lookupA (invalidate cT4 oidA []).index oidA = some 4 := by
  decide

/-- C8 (amended): when a lookup finds at the cached offset a record whose
first 8 bytes differ from the oid, or whose header fails validation
(`tlen ≤ 0`, a negative field, or `vlen + dlen > tlen`; an oid mismatch or
a short/bad-status header makes the parsed `tlen` equal `-1`), `load` and
`modifiedInVersion` drop the offending index entry and return none, and
versioned `update` replaces the entry by appending a fresh record without
the merged non-version half.  `invalidate` validates nothing but the oid:
on a mismatch it returns without dropping the entry (the original claim
wrongly included invalidate among the dropping operations). -/
theorem c8_stale_entry (c : Cache) (oid version : List Nat) (p : Int)
    (hlk : lookupA c.index oid = some p)
    (hbad : readBytes (fileAt c p) p.natAbs 8 ≠ oid ∨
      ((parseHdr (readBytes (fileAt c p) p.natAbs 27) oid).1 ≤ 0 ∨
       (parseHdr (readBytes (fileAt c p) p.natAbs 27) oid).2.1 < 0 ∨
       (parseHdr (readBytes (fileAt c p) p.natAbs 27) oid).2.2 < 0 ∨
       (parseHdr (readBytes (fileAt c p) p.natAbs 27) oid).2.1 +
         (parseHdr (readBytes (fileAt c p) p.natAbs 27) oid).2.2 >
         (parseHdr (readBytes (fileAt c p) p.natAbs 27) oid).1)) :
    ((load c oid version).1 = none ∧
      (load c oid version).2 = { c with index := removeA c.index oid }) ∧
    ((modifiedInVersion c oid).1 = none ∧
      (modifiedInVersion c oid).2 = { c with index := removeA c.index oid }) ∧
    (readBytes (fileAt c p) p.natAbs 8 ≠ oid → invalidate c oid version = c) ∧
    (∀ serial data, version ≠ [] →
      update c oid serial version data = _store c oid [] [] version data serial) := by
  have hp8 : (readBytes (fileAt c p) p.natAbs 27).take 8
      = readBytes (fileAt c p) p.natAbs 8 := by
    simp [readBytes, List.take_take]
  have hguard : (parseHdr (readBytes (fileAt c p) p.natAbs 27) oid).1 ≤ 0 ∨
      (parseHdr (readBytes (fileAt c p) p.natAbs 27) oid).2.1 < 0 ∨
      (parseHdr (readBytes (fileAt c p) p.natAbs 27) oid).2.2 < 0 ∨
      (parseHdr (readBytes (fileAt c p) p.natAbs 27) oid).2.1 +
        (parseHdr (readBytes (fileAt c p) p.natAbs 27) oid).2.2 >
        (parseHdr (readBytes (fileAt c p) p.natAbs 27) oid).1 := by
    rcases hbad with hmm | hg
    · have hparse : parseHdr (readBytes (fileAt c p) p.natAbs 27) oid = (-1, 0, 0) := by
        unfold parseHdr
        rw [if_neg]
        rintro ⟨h1, h2, h3⟩
        exact hmm (hp8 ▸ h3)
      exact Or.inl (by rw [hparse]; decide)
    · exact hg
  have hguard2 : (parseHdr (readBytes (fileAt c p) p.natAbs 27) oid).1 ≤ 0 ∨
      (parseHdr (readBytes (fileAt c p) p.natAbs 27) oid).2.1 < 0 ∨
      (parseHdr (readBytes (fileAt c p) p.natAbs 27) oid).2.2 ≤ 0 ∨
      (parseHdr (readBytes (fileAt c p) p.natAbs 27) oid).2.1 +
        (parseHdr (readBytes (fileAt c p) p.natAbs 27) oid).2.2 >
        (parseHdr (readBytes (fileAt c p) p.natAbs 27) oid).1 := by
    rcases hguard with h | h | h | h
    · exact Or.inl h
    · exact Or.inr (Or.inl h)
    · exact Or.inr (Or.inr (Or.inl (le_of_lt h)))
    · exact Or.inr (Or.inr (Or.inr h))
  refine ⟨?_, ?_, ?_, ?_⟩
  · constructor <;> (simp only [load, hlk]; rw [if_pos hguard])
  · constructor <;> (simp only [modifiedInVersion, hlk]; rw [if_pos hguard])
  · intro hmm
    simp only [invalidate, hlk]
    rw [if_pos hmm]
  · intro serial data hv
    simp only [update, hlk]
    rw [if_pos hv, if_pos hguard2]

/-- A state whose indexed record has a matching oid and status 'v' but a
malformed header: overwriting the first `dlen` byte of `cS1`'s record (file
offset 19 = record offset 15) with 255 makes the signed 32-bit `dlen`
negative. -/
def cW8 : Cache := { cS1 with file0 := writeBytes cS1.file0 19 [255] }

/-- Witness for C8 at two concrete inputs: the dangling entry of `cT4`
(oid-mismatch trigger) and the corrupted header of `cW8` (malformed-header
trigger with matching oid). -/
theorem c8_witness :
    (lookupA cT4.index oidA = some 4 ∧
     readBytes (fileAt cT4 4) (4 : Int).natAbs 8 ≠ oidA ∧
     (load cT4 oidA []).1 = none ∧
     (load cT4 oidA []).2 = { cT4 with index := removeA cT4.index oidA } ∧
     invalidate cT4 oidA [] = cT4) ∧
    (lookupA cW8.index oidA = some 4 ∧
     readBytes (fileAt cW8 4) (4 : Int).natAbs 8 = oidA ∧
     (parseHdr (readBytes (fileAt cW8 4) (4 : Int).natAbs 27) oidA).2.2 < 0 ∧
     (load cW8 oidA []).1 = none ∧
     (load cW8 oidA []).2 = { cW8 with index := removeA cW8.index oidA } ∧
     (modifiedInVersion cW8 oidA).1 = none ∧
     update cW8 oidA svA verA [65] = _store cW8 oidA [] [] verA [65] svA) :=
  ⟨⟨by decide, by decide,
    (c8_stale_entry cT4 oidA [] 4 (by decide) (Or.inl (by decide))).1.1,
    (c8_stale_entry cT4 oidA [] 4 (by decide) (Or.inl (by decide))).1.2,
    (c8_stale_entry cT4 oidA [] 4 (by decide) (Or.inl (by decide))).2.2.1 (by decide)⟩,
   ⟨by decide, by decide, by decide,
    (c8_stale_entry cW8 oidA [] 4 (by decide)
      (Or.inr (Or.inr (Or.inr (Or.inl (by decide)))))).1.1,
    (c8_stale_entry cW8 oidA [] 4 (by decide)
      (Or.inr (Or.inr (Or.inr (Or.inl (by decide)))))).1.2,
    (c8_stale_entry cW8 oidA [] 4 (by decide)
      (Or.inr (Or.inr (Or.inr (Or.inl (by decide)))))).2.1.1,
    (c8_stale_entry cW8 oidA verA 4 (by decide)
      (Or.inr (Or.inr (Or.inr (Or.inl (by decide)))))).2.2.2 svA [65] (by decide)⟩⟩

/-! ## C1 and C2: the `invalidate` write lands at offset +16 -/

/-- The state after a versioned store on a fresh cache. -/
def cV1 : Cache := store (freshCache 1000) oidA [97, 98, 99] serA verA [65, 66, 67] svA

/-- C1: evaluation of the code at the claim's failing input.  After
`store(oidA, "abc", serA, "", none, none)` at offset 4,
`invalidate(oidA, "")` does remove the oid from the index (so every later
load misses), but the status byte at record offset +8 still holds 'v'
(118): the single 'i' (105) was written at offset +16, in the middle of the
`dlen` field, because `f.seek(8, 1)` is a relative seek from position
ap+8.  The claim's assertion that 'i' is written at offset +8 is false of
the code. -/
theorem c1_invalidate_bug :
    lookupA (invalidate cS1 oidA []).index oidA = none ∧
    readBytes (invalidate cS1 oidA []).file0 (4 + 8) 1 = [118] ∧
    readBytes (invalidate cS1 oidA []).file0 (4 + 8) 1 ≠ [105] ∧
    readBytes (invalidate cS1 oidA []).file0 (4 + 16) 1 = [105] ∧
    (load (invalidate cS1 oidA []) oidA []).1 = none ∧
    (load (invalidate cS1 oidA []) oidA verA).1 = none := by
  decide

/-- C2: evaluation of the code at the claim's failing input.  After a
versioned store, `invalidate(oidA, "v1")` keeps the index entry, but the
'n' (110) lands at offset +16 inside the `dlen` field instead of at the
status byte (+8, still 'v').  The corrupted `dlen` (110·2^16 + 3) then
fails the `vlen + dlen > tlen` sanity check, so the next `load(oidA,
"v1")` deletes the entry and every subsequent `load(oidA, "")` misses —
contradicting the claim that the non-version pair remains loadable. -/
theorem c2_invalidate_version_bug :
    lookupA (invalidate cV1 oidA verA).index oidA = some 4 ∧
    readBytes (invalidate cV1 oidA verA).file0 (4 + 8) 1 = [118] ∧
    readBytes (invalidate cV1 oidA verA).file0 (4 + 8) 1 ≠ [110] ∧
    readBytes (invalidate cV1 oidA verA).file0 (4 + 16) 1 = [110] ∧
    (load (invalidate cV1 oidA verA) oidA verA).1 = none ∧
    lookupA (load (invalidate cV1 oidA verA) oidA verA).2.index oidA = none ∧
    (load (invalidate cV1 oidA verA) oidA []).1 = none ∧
    (load (invalidate cV1 oidA verA) oidA []).1 ≠ some ([97, 98, 99], serA) := by
  decide

/-! ## C3 counterexample -/

/-- C3 counterexample: the invariant "every index entry points at a record
whose first 8 bytes equal the oid and whose status is 'v' or 'n'" does not
hold at all times.  After the double rotation `cT4` (store, checkSize,
store, checkSize), the entry for `oidA` still maps to offset 4 of
segment 0, but that segment was reset to the 4-byte magic, so the 8 bytes
at the offset (an empty read) are not the oid and no status byte exists. -/
theorem c3_counterexample :
    lookupA cT4.index oidA = some 4 ∧
    ¬(readBytes (fileAt cT4 4) (4 : Int).natAbs 8 = oidA ∧
      (readBytes (fileAt cT4 4) ((4 : Int).natAbs + 8) 1 = [118] ∨
       readBytes (fileAt cT4 4) ((4 : Int).natAbs + 8) 1 = [110])) := by
  decide

/-! ## C4: the scanner's trailing self-check -/

/-- C4 counterexample: the spec claims the scanner compares the 4 bytes
after `vserial` with the FIRST 4 bytes of the header (the first half of the
oid) and stops when they differ.  On this record the trailing 4 bytes are
the encoded `tlen` `[0,0,0,51]`, which differs from the oid half
`[1,2,3,4]` — the claim predicts a stop, yet the scanner accepts the
record, indexes it at offset 4 and advances to 55: the code compares
against `h[9:13]`, the tlen field. -/
theorem c4_counterexample :
    readBytes cV1.file0 51 4 = [0, 0, 0, 51] ∧
    readBytes cV1.file0 4 4 = [1, 2, 3, 4] ∧
    readBytes cV1.file0 51 4 ≠ readBytes cV1.file0 4 4 ∧
    lookupA (read_index [] [] cV1.file0 false).index oidA = some 4 ∧
    (read_index [] [] cV1.file0 false).pos = 55 := by
  decide

/-- C4 (amended): in the index scanner, for a candidate record with status
'v' and vlen > 0, after reading vdlen, skipping the version data and
reading the 8-byte vserial, the scanner reads the next 4 bytes and requires
them to equal BYTES 9..12 of the 27-byte header — the encoded `tlen` field
(`h[9:13]` in the source) — continuing the scan when they match and
stopping when they differ.  (The original claim said the comparison is
against the first 4 bytes of the header, i.e. the first half of the oid.) -/
theorem c4_trailing_check (f : List Nat) (cur : Bool) (fuel : Nat) (st : ScanState)
    (h : List Nat) (tl vl dl vdl : Nat)
    (hh : readBytes f st.pos 27 = h)
    (hlen : h.length = 27)
    (hst : (h.drop 8).take 1 = [118])
    (htl : sInt32 (readBytes h 9 4) = (tl : Int))
    (hvl : beNat (readBytes h 13 2) = vl)
    (hdl : sInt32 (readBytes h 15 4) = (dl : Int))
    (hvl0 : 0 < vl) (htl0 : 0 < tl) (hguard : vl + dl ≤ tl)
    (hvdlB : readBytes f (st.pos + 27 + dl + vl) 4 = packU32 vdl)
    (hvdl : vdl < 2147483648)
    (hguard2 : vl + dl + 42 + vdl ≤ tl) :
    scanLoop f cur (fuel + 1) st
      = (if readBytes f (st.pos + 27 + dl + vl + 4 + vdl + 8) 4 = readBytes h 9 4
         then scanLoop f cur fuel
            { index := insertA st.index (h.take 8)
                (if cur then -(st.pos : Int) else (st.pos : Int)),
              serial := insertA st.serial (h.take 8)
                (h.drop 19, some (readBytes f (st.pos + 27 + dl + vl + 4 + vdl) 8)),
              pos := st.pos + tl }
         else st) := by
  have hlen4 : (packU32 vdl).length = 4 := rfl
  have hsi : sInt32 (packU32 vdl) = (vdl : Int) := sInt32_packU32 _ hvdl
  have hbase : (((st.pos + 27 + dl + vl + 4 : Nat) : Int) + (vdl : Int)).toNat
      = st.pos + 27 + dl + vl + 4 + vdl := by
    omega
  simp only [scanLoop, hh, htl, hvl, hdl, Int.toNat_natCast,
    if_pos (show h.length = 27 ∧ ((h.drop 8).take 1 = [118] ∨ (h.drop 8).take 1 = [110]
      ∨ (h.drop 8).take 1 = [105]) from ⟨hlen, Or.inl hst⟩)]
  split
  · next hcond => exfalso; rcases hcond with h2 | h2 | h2 | h2 <;> omega
  rw [if_pos (show (h.drop 8).take 1 = [118] ∧ (vl : Int) ≠ 0 from ⟨hst, by omega⟩)]
  simp only [hvdlB, hlen4, hsi, hbase, Int.toNat_natCast]
  rw [if_neg (show ¬(4 : Nat) ≠ 4 from fun h2 => h2 rfl)]
  rw [if_neg (show ¬((vl : Int) + (dl : Int) + 42 + (vdl : Int) > (tl : Int)) by
    omega)]
  by_cases hc : readBytes f (st.pos + 27 + dl + vl + 4 + vdl + 8) 4 = readBytes h 9 4
  · rw [if_neg (show ¬(readBytes f (st.pos + 27 + dl + vl + 4 + vdl + 8) 4
        ≠ readBytes h 9 4) from fun h2 => h2 hc)]
    simp only []
    rw [if_pos (show (h.drop 8).take 1 = [118] ∨ (h.drop 8).take 1 = [110]
        from Or.inl hst)]
    rw [if_pos hc]
  · rw [if_pos (show readBytes f (st.pos + 27 + dl + vl + 4 + vdl + 8) 4
        ≠ readBytes h 9 4 from hc)]
    rw [if_neg hc]

/-- The header of the record stored in `cV1`, as the scanner reads it. -/
def hdrW : List Nat := oidA ++ [118] ++ packU32 51 ++ packU16 2 ++ packU32 3 ++ serA

/-- Witness for C4 at a concrete input. -/
theorem c4_witness :
    readBytes cV1.file0 4 27 = hdrW ∧
    scanLoop cV1.file0 false 56 { index := [], serial := [], pos := 4 }
      = (if readBytes cV1.file0 (4 + 27 + 3 + 2 + 4 + 3 + 8) 4 = readBytes hdrW 9 4
         then scanLoop cV1.file0 false 55
            { index := insertA [] (hdrW.take 8)
                (if false then -((4 : Nat) : Int) else ((4 : Nat) : Int)),
              serial := insertA [] (hdrW.take 8)
                (hdrW.drop 19, some (readBytes cV1.file0 (4 + 27 + 3 + 2 + 4 + 3) 8)),
              pos := 4 + 51 }
         else { index := [], serial := [], pos := 4 }) :=
  ⟨by decide,
   c4_trailing_check cV1.file0 false 55 { index := [], serial := [], pos := 4 } hdrW
     51 2 3 3 (by decide) (by decide) (by decide) (by decide) (by decide) (by decide)
     (by decide) (by decide) (by decide) (by decide) (by decide) (by decide)⟩

/-! ## The C3 state invariant -/

theorem recTlen_ge (p version pv : List Nat) : 31 ≤ recTlen p version pv := by
  unfold recTlen
  split <;> omega

theorem recBytes_length (oid p s version pv sv : List Nat)
    (hoid : oid.length = 8) (hs : s.length = 8)
    (hsv : version ≠ [] → sv.length = 8) :
    (recBytes oid p s version pv sv).length = recTlen p version pv := by
  by_cases hv : version = []
  · simp [recBytes, recTlen, hv, packU32, packU16, hoid, hs]
    omega
  · have hsv8 := hsv hv
    simp [recBytes, recTlen, hv, packU32, packU16, hoid, hs, hsv8]
    omega

/-- `_store` on a state whose active segment is 0, written out explicitly. -/
theorem _store_false (c : Cache) (oid p s version pv sv : List Nat)
    (hc : c.current = false) :
    _store c oid p s version pv sv =
      { c with
          file0 := writeBytes c.file0 c.pos
            (recBytes oid (if s = [] then [] else p)
              (if s = [] then List.replicate 8 0 else s) version pv sv),
          index := insertA c.index oid (c.pos : Int),
          pos := c.pos + recTlen (if s = [] then [] else p) version pv } := by
  simp [_store, putCurFile, curFile, hc]

/-- The first 8 bytes of a freshly written record are the oid. -/
theorem store_oid_read (f : List Nat) (off : Nat) (oid p s version pv sv : List Nat)
    (hoid : oid.length = 8) :
    readBytes (writeBytes f off (recBytes oid p s version pv sv)) off 8 = oid :=
  read_write_chunk _ off off 8 _ [] oid
    ([118] ++ (packU32 (recTlen p version pv)
      ++ (packU16 (if version = [] then 0 else version.length)
        ++ (packU32 p.length ++ (s ++ (p
          ++ ((if version = [] then [] else version ++ packU32 pv.length ++ pv ++ sv)
            ++ packU32 (recTlen p version pv))))))))
    (by simp [recBytes, List.append_assoc]) (by simp) hoid.symm

/-- Byte 8 of a freshly written record is the status 'v'. -/
theorem store_status_read (f : List Nat) (off : Nat) (oid p s version pv sv : List Nat)
    (hoid : oid.length = 8) :
    readBytes (writeBytes f off (recBytes oid p s version pv sv)) (off + 8) 1 = [118] :=
  read_write_chunk _ off (off + 8) 1 _ oid [118]
    (packU32 (recTlen p version pv)
      ++ (packU16 (if version = [] then 0 else version.length)
        ++ (packU32 p.length ++ (s ++ (p
          ++ ((if version = [] then [] else version ++ packU32 pv.length ++ pv ++ sv)
            ++ packU32 (recTlen p version pv)))))))
    (by simp [recBytes, List.append_assoc]) (by rw [hoid]) rfl

/-- The state invariant behind the amended C3: a run that starts on a fresh
cache and never rotates keeps segment 0 active; every index entry is
positive, points at least 31 bytes below the append position (records never
overlap), carries the oid in its first 8 bytes and the status 'v', and
distinct entries are at least 31 bytes apart. -/
def InvC (c : Cache) : Prop :=
  c.current = false ∧ 4 ≤ c.pos ∧ c.pos ≤ c.file0.length ∧
  (∀ oid p, lookupA c.index oid = some p →
    0 < p ∧ p.toNat + 31 ≤ c.pos ∧
    readBytes c.file0 p.toNat 8 = oid ∧
    readBytes c.file0 (p.toNat + 8) 1 = [118]) ∧
  (∀ o1 p1 o2 p2, lookupA c.index o1 = some p1 → lookupA c.index o2 = some p2 →
    o1 ≠ o2 → p1.toNat + 31 ≤ p2.toNat ∨ p2.toNat + 31 ≤ p1.toNat)

theorem InvC_fresh (L : Nat) : InvC (freshCache L) := by
  refine ⟨rfl, le_refl 4, le_refl 4, ?_, ?_⟩
  · intro oid p hlk
    exact absurd hlk (by simp [freshCache, lookupA])
  · intro o1 p1 o2 p2 h1 h2 h3
    exact absurd h1 (by simp [freshCache, lookupA])

theorem InvC_store (c : Cache) (oid p s version pv sv : List Nat)
    (hinv : InvC c) (hoid : oid.length = 8) (hs : s = [] ∨ s.length = 8)
    (hsv : version ≠ [] → sv.length = 8) :
    InvC (_store c oid p s version pv sv) := by
  obtain ⟨hcur, hpos4, hflen, hent, hsep⟩ := hinv
  rw [_store_false c oid p s version pv sv hcur]
  set p2 := if s = [] then [] else p with hp2
  set s2 := if s = [] then List.replicate 8 0 else s with hs2
  have hs28 : s2.length = 8 := by
    rcases hs with h | h
    · simp [hs2, h]
    · have h2 : s ≠ [] := by intro h3; rw [h3] at h; simp at h
      simp [hs2, h2, h]
  have hrl : (recBytes oid p2 s2 version pv sv).length = recTlen p2 version pv :=
    recBytes_length oid p2 s2 version pv sv hoid hs28 hsv
  have htge := recTlen_ge p2 version pv
  have hwlen : (writeBytes c.file0 c.pos (recBytes oid p2 s2 version pv sv)).length
      = max c.file0.length (c.pos + recTlen p2 version pv) := by
    rw [writeBytes_length, hrl]
  refine ⟨hcur, ?_, ?_, ?_, ?_⟩
  · show 4 ≤ c.pos + recTlen p2 version pv
    omega
  · show c.pos + recTlen p2 version pv
      ≤ (writeBytes c.file0 c.pos (recBytes oid p2 s2 version pv sv)).length
    rw [hwlen]
    omega
  · intro oid2 q hlk
    have hlk2 : lookupA (insertA c.index oid ((c.pos : Int))) oid2 = some q := hlk
    show 0 < q ∧ q.toNat + 31 ≤ c.pos + recTlen p2 version pv ∧
      readBytes (writeBytes c.file0 c.pos (recBytes oid p2 s2 version pv sv)) q.toNat 8
        = oid2 ∧
      readBytes (writeBytes c.file0 c.pos (recBytes oid p2 s2 version pv sv))
        (q.toNat + 8) 1 = [118]
    by_cases he : oid2 = oid
    · subst he
      rw [lookupA_insertA_self] at hlk2
      injection hlk2 with hq
      subst hq
      refine ⟨by omega, by simp; omega, ?_, ?_⟩
      · simpa using store_oid_read c.file0 c.pos oid2 p2 s2 version pv sv hoid
      · simpa using store_status_read c.file0 c.pos oid2 p2 s2 version pv sv hoid
    · rw [lookupA_insertA_ne c.index oid oid2 _ he] at hlk2
      obtain ⟨hq0, hq31, hrd8, hrd1⟩ := hent oid2 q hlk2
      refine ⟨hq0, by omega, ?_, ?_⟩
      · rw [read_write_below c.file0 c.pos q.toNat 8 _ (by omega) (by omega)]
        exact hrd8
      · rw [read_write_below c.file0 c.pos (q.toNat + 8) 1 _ (by omega) (by omega)]
        exact hrd1
  · intro o1 q1 o2 q2 h1 h2 hne
    have h1b : lookupA (insertA c.index oid ((c.pos : Int))) o1 = some q1 := h1
    have h2b : lookupA (insertA c.index oid ((c.pos : Int))) o2 = some q2 := h2
    by_cases he1 : o1 = oid
    · subst he1
      rw [lookupA_insertA_self] at h1b
      injection h1b with hq
      subst hq
      rw [lookupA_insertA_ne c.index o1 o2 _ (fun h3 => hne h3.symm)] at h2b
      obtain ⟨_, hq31, _, _⟩ := hent o2 q2 h2b
      right
      simp only [Int.toNat_natCast]
      omega
    · rw [lookupA_insertA_ne c.index oid o1 _ he1] at h1b
      by_cases he2 : o2 = oid
      · subst he2
        rw [lookupA_insertA_self] at h2b
        injection h2b with hq
        subst hq
        obtain ⟨_, hq31, _, _⟩ := hent o1 q1 h1b
        left
        simp only [Int.toNat_natCast]
        omega
      · rw [lookupA_insertA_ne c.index oid o2 _ he2] at h2b
        exact hsep o1 q1 o2 q2 h1b h2b hne

theorem InvC_invalidate (c : Cache) (oid version : List Nat) (hinv : InvC c) :
    InvC (invalidate c oid version) := by
  obtain ⟨hcur, hpos4, hflen, hent, hsep⟩ := hinv
  cases hlk : lookupA c.index oid with
  | none =>
    simp only [invalidate, hlk]
    exact ⟨hcur, hpos4, hflen, hent, hsep⟩
  | some p =>
    obtain ⟨hp0, hp31, hrd8, hrd1⟩ := hent oid p hlk
    have hnotneg : ¬(p < 0) := by omega
    have hfile : fileAt c p = c.file0 := by simp [fileAt, hnotneg]
    have hna : p.natAbs = p.toNat := by omega
    have hput : ∀ nf, putFileAt c p nf = { c with file0 := nf } := by
      intro nf
      simp [putFileAt, hnotneg]
    have hwl : ∀ b : Nat, (writeBytes c.file0 (p.toNat + 16) [b]).length
        = c.file0.length := by
      intro b
      rw [writeBytes_length]
      simp
      omega
    have hkeep : ∀ (b : Nat) (o2 : List Nat) (q : Int), lookupA c.index o2 = some q →
        0 < q ∧ q.toNat + 31 ≤ c.pos ∧
        readBytes (writeBytes c.file0 (p.toNat + 16) [b]) q.toNat 8 = o2 ∧
        readBytes (writeBytes c.file0 (p.toNat + 16) [b]) (q.toNat + 8) 1 = [118] := by
      intro b o2 q hlk2
      obtain ⟨hq0, hq31, hrd8b, hrd1b⟩ := hent o2 q hlk2
      by_cases heq : o2 = oid
      · subst heq
        rw [hlk] at hlk2
        injection hlk2 with hq
        subst hq
        refine ⟨hq0, hq31, ?_, ?_⟩
        · rw [read_write_below c.file0 (p.toNat + 16) p.toNat 8 _ (by omega) (by omega)]
          exact hrd8b
        · rw [read_write_below c.file0 (p.toNat + 16) (p.toNat + 8) 1 _ (by omega)
            (by omega)]
          exact hrd1b
      · rcases hsep o2 q oid p hlk2 hlk heq with hcase | hcase
        · refine ⟨hq0, hq31, ?_, ?_⟩
          · rw [read_write_below c.file0 (p.toNat + 16) q.toNat 8 _ (by omega) (by omega)]
            exact hrd8b
          · rw [read_write_below c.file0 (p.toNat + 16) (q.toNat + 8) 1 _ (by omega)
              (by omega)]
            exact hrd1b
        · refine ⟨hq0, hq31, ?_, ?_⟩
          · rw [read_write_above c.file0 (p.toNat + 16) q.toNat 8 _ (by simp; omega)
              (by omega)]
            exact hrd8b
          · rw [read_write_above c.file0 (p.toNat + 16) (q.toNat + 8) 1 _ (by simp; omega)
              (by omega)]
            exact hrd1b
    simp only [invalidate, hlk, hfile, hna]
    rw [if_neg (show ¬(readBytes c.file0 p.toNat 8 ≠ oid) from fun h2 => h2 hrd8)]
    by_cases hv : version ≠ []
    · rw [if_pos hv, hput]
      refine ⟨hcur, hpos4, ?_, ?_, ?_⟩
      · show c.pos ≤ (writeBytes c.file0 (p.toNat + 16) [110]).length
        rw [hwl]
        exact hflen
      · intro o2 q hlk2
        exact hkeep 110 o2 q hlk2
      · intro o1 q1 o2 q2 h1 h2 hne
        exact hsep o1 q1 o2 q2 h1 h2 hne
    · rw [if_neg hv, hput]
      refine ⟨hcur, hpos4, ?_, ?_, ?_⟩
      · show c.pos ≤ (writeBytes c.file0 (p.toNat + 16) [105]).length
        rw [hwl]
        exact hflen
      · intro o2 q hlk2
        exact hkeep 105 o2 q (lookupA_removeA_sub c.index oid o2 q hlk2)
      · intro o1 q1 o2 q2 h1 h2 hne
        exact hsep o1 q1 o2 q2 (lookupA_removeA_sub c.index oid o1 q1 h1)
          (lookupA_removeA_sub c.index oid o2 q2 h2) hne

/-- After a `load`, the state is either unchanged or has lost the entry of
the queried oid. -/
theorem load_state_cases (c : Cache) (oid version : List Nat) :
    (load c oid version).2 = c ∨
    (load c oid version).2 = { c with index := removeA c.index oid } := by
  unfold load
  cases hlk : lookupA c.index oid with
  | none => exact Or.inl rfl
  | some p =>
    simp only []
    split
    all_goals try split
    all_goals try split
    all_goals try split
    all_goals try split
    all_goals try split
    all_goals first
      | exact Or.inl rfl
      | exact Or.inr rfl

theorem InvC_load (c : Cache) (oid version : List Nat) (hinv : InvC c) :
    InvC ((load c oid version).2) := by
  rcases load_state_cases c oid version with h | h <;> rw [h]
  · exact hinv
  · obtain ⟨hcur, hpos4, hflen, hent, hsep⟩ := hinv
    refine ⟨hcur, hpos4, hflen, ?_, ?_⟩
    · intro o2 q hlk2
      exact hent o2 q (lookupA_removeA_sub c.index oid o2 q hlk2)
    · intro o1 q1 o2 q2 h1 h2 hne
      exact hsep o1 q1 o2 q2 (lookupA_removeA_sub c.index oid o1 q1 h1)
        (lookupA_removeA_sub c.index oid o2 q2 h2) hne

/-- A positive parsed `tlen` implies the header really was 27 bytes. -/
theorem parseHdr_len27 (h oid : List Nat) (hpos : 0 < (parseHdr h oid).1) :
    h.length = 27 := by
  unfold parseHdr at hpos
  split at hpos
  · next hcond => exact hcond.1
  · norm_num at hpos

theorem InvC_update (c : Cache) (oid serial version data : List Nat)
    (hinv : InvC c) (hoid : oid.length = 8)
    (hser0 : version = [] → serial = [] ∨ serial.length = 8)
    (hser1 : version ≠ [] → serial.length = 8) :
    InvC (update c oid serial version data) := by
  by_cases hv : version = []
  · subst hv
    unfold update
    rw [if_neg (show ¬(([] : List Nat) ≠ []) from fun h2 => h2 rfl)]
    exact InvC_store c oid data serial [] [] [] hinv hoid (hser0 rfl)
      (fun h2 => absurd rfl h2)
  · unfold update
    rw [if_pos hv]
    cases hlk : lookupA c.index oid with
    | none =>
      simp only [hlk]
      exact InvC_store c oid [] [] version data serial hinv hoid (Or.inl rfl)
        (fun _ => hser1 hv)
    | some p =>
      simp only [hlk]
      split
      · exact InvC_store c oid [] [] version data serial hinv hoid (Or.inl rfl)
          (fun _ => hser1 hv)
      · next hg =>
        split
        · have hpos2 : 0 < (parseHdr (readBytes (fileAt c p) p.natAbs 27) oid).1 := by
            push_neg at hg
            omega
          have h27 := parseHdr_len27 _ _ hpos2
          have hdrop : ((readBytes (fileAt c p) p.natAbs 27).drop 19).length = 8 := by
            rw [List.length_drop, h27]
          exact InvC_store c oid _ _ version data serial hinv hoid (Or.inr hdrop)
            (fun _ => hser1 hv)
        · exact InvC_store c oid [] [] version data serial hinv hoid (Or.inl rfl)
            (fun _ => hser1 hv)

/-- The operations considered by the amended C3 invariant (`checkSize` is
excluded: rotation leaves dangling entries, see the counterexample). -/
inductive Op where
  | store (oid p s version pv sv : List Nat)
  | update (oid serial version data : List Nat)
  | invalidate (oid version : List Nat)
  | load (oid version : List Nat)

/-- Apply one operation to a cache state (the result of a `load` is
discarded; only its state effect matters). -/
def applyOp (c : Cache) : Op → Cache
  | Op.store oid p s version pv sv => store c oid p s version pv sv
  | Op.update oid serial version data => update c oid serial version data
  | Op.invalidate oid version => invalidate c oid version
  | Op.load oid version => (load c oid version).2

/-- Apply a sequence of operations from left to right. -/
def applyOps (c : Cache) (ops : List Op) : Cache :=
  ops.foldl applyOp c

/-- Well-formed operation arguments: 8-byte oids, serials empty or 8 bytes
(an empty serial is coerced by `_store`), version serials 8 bytes when a
version is present, and version names short enough for
`struct.pack(">H", vlen)` not to raise. -/
def OpOK : Op → Prop
  | Op.store oid _ s version _ sv =>
      oid.length = 8 ∧ (s = [] ∨ s.length = 8) ∧ version.length < 65536
        ∧ (version ≠ [] → sv.length = 8)
  | Op.update oid serial version _ =>
      oid.length = 8 ∧ version.length < 65536
        ∧ (version = [] → serial = [] ∨ serial.length = 8)
        ∧ (version ≠ [] → serial.length = 8)
  | Op.invalidate _ _ => True
  | Op.load _ _ => True

theorem InvC_applyOp (c : Cache) (op : Op) (hinv : InvC c) (hok : OpOK op) :
    InvC (applyOp c op) := by
  cases op with
  | store oid p s version pv sv =>
    exact InvC_store c oid p s version pv sv hinv hok.1 hok.2.1 hok.2.2.2
  | update oid serial version data =>
    exact InvC_update c oid serial version data hinv hok.1 hok.2.2.1 hok.2.2.2
  | invalidate oid version => exact InvC_invalidate c oid version hinv
  | load oid version => exact InvC_load c oid version hinv

theorem InvC_applyOps (c : Cache) (ops : List Op) (hinv : InvC c)
    (hok : ∀ op ∈ ops, OpOK op) : InvC (applyOps c ops) := by
  induction ops generalizing c with
  | nil => exact hinv
  | cons op t ih =>
    exact ih (applyOp c op) (InvC_applyOp c op hinv (hok op (by simp)))
      (fun o ho => hok o (by simp [ho]))

/-- C3 (amended): starting from a freshly opened cache and applying any
sequence of store, update, invalidate and load operations with well-formed
arguments (no `checkSize` rotation — rotation leaves dangling entries, see
the counterexample), every entry of the index maps an oid to a signed
offset at which the record's first 8 bytes equal that oid and the record's
status byte is 'v' or 'n'.  (In such runs the status is in fact always 'v',
because the `invalidate` bug writes its 'n'/'i' byte into the dlen field.) -/
theorem c3_index_invariant (L : Nat) (ops : List Op)
    (hops : ∀ op ∈ ops, OpOK op) (oid : List Nat) (p : Int)
    (hlk : lookupA (applyOps (freshCache L) ops).index oid = some p) :
    readBytes (fileAt (applyOps (freshCache L) ops) p) p.natAbs 8 = oid ∧
    (readBytes (fileAt (applyOps (freshCache L) ops) p) (p.natAbs + 8) 1 = [118] ∨
     readBytes (fileAt (applyOps (freshCache L) ops) p) (p.natAbs + 8) 1 = [110]) := by
  obtain ⟨hcur, hpos4, hflen, hent, hsep⟩ :=
    InvC_applyOps (freshCache L) ops (InvC_fresh L) hops
  obtain ⟨hp0, hp31, hrd8, hrd1⟩ := hent oid p hlk
  have hnn : ¬(p < 0) := by omega
  have hna : p.natAbs = p.toNat := by omega
  rw [show fileAt (applyOps (freshCache L) ops) p = (applyOps (freshCache L) ops).file0
    from by simp [fileAt, hnn], hna]
  exact ⟨hrd8, Or.inl hrd1⟩

/-- Witness for C3 at a concrete input. -/
theorem c3_witness :
    lookupA (applyOps (freshCache 1000) [Op.store oidA [97] serA [] [] []]).index oidA
      = some 4 ∧
    readBytes (fileAt (applyOps (freshCache 1000) [Op.store oidA [97] serA [] [] []]) 4)
      (4 : Int).natAbs 8 = oidA :=
  ⟨by decide,
   (c3_index_invariant 1000 [Op.store oidA [97] serA [] [] []]
     (by
       intro op hop
       rcases List.mem_singleton.mp hop with rfl
       exact ⟨rfl, Or.inr rfl, by norm_num, fun h2 => absurd rfl h2⟩)
     oidA 4 (by decide)).1⟩
